import Mathlib

/-!
Verification development for the `scraper_tool` crawler
(`src/scraper_tool/scraper.py`).

The development shallowly embeds the crawler: URL helpers
(`Scraper.normalize_url`, `Scraper.is_valid_url`, the `urllib.parse`
collaborators `urlparse`/`urljoin`), the parsed-HTML document model used by
the BeautifulSoup calls in `Scraper.crawl`, the per-page extraction pipeline
(content-region selection, noise removal, link rewriting, title extraction,
markdown post-processing), and the crawl loop itself (queue, `seen_urls`,
`visited`, per-page failure handling).  Python sets are modelled as
insertion-ordered duplicate-free lists, so `visited` is also the processing
order.  The headless browser and the markdown converter are external
collaborators: they appear as the function parameters of `Collab`.
-/

namespace ScraperTool

/-! ## URL string helpers -/

/-- `Scraper.normalize_url` (scraper.py line 50):
`url.split('#')[0].rstrip('/')` — keep everything before the first `#`,
then remove every trailing `/` (Python `rstrip` strips all of them). -/
def normalize_url (url : String) : String :=
  String.mk ((((url.toList.takeWhile (fun c => c ≠ '#')).reverse.dropWhile
    (fun c => c = '/')).reverse))

/-- Characters allowed after the first character of a URL scheme
(`urllib.parse` accepts letters, digits, `+`, `-`, `.`). -/
def isSchemeChar (c : Char) : Bool :=
  c.isAlphanum || c == '+' || c == '-' || c == '.'

/-- A non-empty scheme candidate: first character a letter, remainder
scheme characters. -/
def saneScheme : List Char → Bool
  | [] => false
  | c :: cs => c.isAlpha && cs.all isSchemeChar

/-- Modelled collaborator `urllib.parse`: split `scheme:rest` off a URL
when a well-formed scheme is present. -/
def splitScheme (cs : List Char) : Option (List Char × List Char) :=
  match cs.dropWhile (fun c => c ≠ ':') with
  | ':' :: rest =>
      if saneScheme (cs.takeWhile (fun c => c ≠ ':')) then
        some (cs.takeWhile (fun c => c ≠ ':'), rest)
      else none
  | _ => none

/-- Does the string carry a URL scheme? -/
def hasScheme (s : String) : Bool :=
  (splitScheme s.toList).isSome

/-- The scheme characters of a URL (empty when there is no scheme). -/
def schemeOfL (cs : List Char) : List Char :=
  match splitScheme cs with
  | some (pre, _) => pre
  | none => []

/-- Everything after `scheme:`, or the whole string when there is no
scheme. -/
def afterSchemeL (cs : List Char) : List Char :=
  match splitScheme cs with
  | some (_, rest) => rest
  | none => cs

/-- Modelled collaborator `urllib.parse.urlparse(...).netloc`: the
authority component, present only after `//`, delimited by `/`, `?`, `#`. -/
def netlocL (cs : List Char) : List Char :=
  match afterSchemeL cs with
  | '/' :: '/' :: r => r.takeWhile (fun c => c != '/' && c != '?' && c != '#')
  | _ => []

/-- String version of `netlocL`. -/
def netloc (s : String) : String :=
  String.mk (netlocL s.toList)

/-- Modelled collaborator `urllib.parse.urlparse(...).path` for
hierarchical URLs: the part after the authority, before `?` or `#`. -/
def urlpathL (cs : List Char) : List Char :=
  let r := afterSchemeL cs
  let r2 := match r with
    | '/' :: '/' :: rest => rest.dropWhile (fun c => c != '/' && c != '?' && c != '#')
    | _ => r
  r2.takeWhile (fun c => c != '?' && c != '#')

/-- String version of `urlpathL`. -/
def urlpath (s : String) : String :=
  String.mk (urlpathL s.toList)

/-- The base path truncated to its last `/` inclusive (or just `/` when
it has none). -/
def dirSeg (base : List Char) : List Char :=
  if ((urlpathL base).reverse.dropWhile (fun c => c != '/')).reverse.isEmpty then ['/']
  else ((urlpathL base).reverse.dropWhile (fun c => c != '/')).reverse

/-- The directory prefix of a base URL used for resolving relative
references: `scheme://netloc` plus the path up to and including its last
`/`. -/
def dirOfL (base : List Char) : List Char :=
  schemeOfL base ++ ':' :: '/' :: '/' :: netlocL base ++ dirSeg base

/-- Modelled collaborator `urllib.parse.urljoin`, restricted to the
hierarchical (`http`-style) references the crawler feeds it: empty
reference, scheme-absolute reference, protocol-relative (`//…`),
root-relative (`/…`) and plain directory-relative references.
Dot-segment and query-only references are outside the modelled fragment. -/
def urljoinL (base url : List Char) : List Char :=
  if url.isEmpty then base
  else if base.isEmpty then url
  else if (splitScheme url).isSome then url
  else if url.take 2 = ['/', '/'] then schemeOfL base ++ ':' :: url
  else if url.take 1 = ['/'] then schemeOfL base ++ ':' :: '/' :: '/' :: netlocL base ++ url
  else dirOfL base ++ url

/-- String version of `urljoinL`. -/
def urljoin (base url : String) : String :=
  String.mk (urljoinL base.toList url.toList)

/-! ## Parsed HTML documents

The BeautifulSoup tree: element nodes carry a tag name, an attribute
list and children; text nodes carry a string (`NavigableString`).  A parsed
page is a root node (BeautifulSoup's `[document]`) whose descendants are
the markup.  `find`/`find_all` traverse in document order, i.e. preorder. -/

inductive Node where
  | elem (tag : String) (attrs : List (String × String)) (children : List Node)
  | text (s : String)

/-- The tag name of a node (text nodes get the pseudo-tag `[text]`). -/
def tagOf : Node → String
  | .elem t _ _ => t
  | .text _ => "[text]"

/-- `tag.get(name)` — first attribute with the given name. -/
def getAttr : List (String × String) → String → Option String
  | [], _ => none
  | (k, w) :: rest, key => if k = key then some w else getAttr rest key

/-- `tag[name] = value` — replace the attribute (append when absent). -/
def setAttr : List (String × String) → String → String → List (String × String)
  | [], key, v => [(key, v)]
  | (k, w) :: rest, key, v =>
      if k = key then (k, v) :: rest else (k, w) :: setAttr rest key v

/-- Python truthiness of a BeautifulSoup node: `Tag.__len__` is the length
of `contents`, so an element is truthy iff it has at least one child; a
`NavigableString` is a `str`, truthy iff non-empty. -/
def truthyNode : Node → Bool
  | .elem _ _ cs => !cs.isEmpty
  | .text s => !(s == "")

/-- Python truthiness of an optional node (`None` is falsy). -/
def truthyOpt : Option Node → Bool
  | none => false
  | some n => truthyNode n

/-- A position in the document tree: the list of child indices from the
root.  BeautifulSoup `find` hands back a live reference into the tree;
the embedding models that reference as the node's path, so that an
in-place mutation of the found region is a functional update of the whole
document at that path. -/
abbrev Path := List Nat

mutual

/-- Subtree at a path. -/
def getAt : Node → Path → Option Node
  | n, [] => some n
  | .text _, _ :: _ => none
  | .elem _ _ cs, i :: p => getAtList cs i p

/-- Subtree at an index + path inside a child list. -/
def getAtList : List Node → Nat → Path → Option Node
  | [], _, _ => none
  | c :: _, 0, p => getAt c p
  | _ :: cs, i + 1, p => getAtList cs i p

end

mutual

/-- Functional update of the subtree at a path (the identity when the
path dangles). -/
def mutateAt : Node → Path → (Node → Node) → Node
  | n, [], f => f n
  | .text s, _ :: _, _ => .text s
  | .elem t a cs, i :: p, f => .elem t a (mutateChild cs i p f)

/-- List form of `mutateAt`. -/
def mutateChild : List Node → Nat → Path → (Node → Node) → List Node
  | [], _, _, _ => []
  | c :: cs, 0, p, f => mutateAt c p f :: cs
  | c :: cs, i + 1, p, f => c :: mutateChild cs i p f

end

mutual

/-- `soup.find(tag)` as a path: first node with the given tag name in
document order (preorder). -/
def findTagPath (t : String) : Node → Option Path
  | .text _ => none
  | .elem t2 _ cs =>
      if t2 = t then some [] else
        match findTagPathChildren t cs with
        | some (i, p) => some (i :: p)
        | none => none

/-- Search a child list: index of the child containing the first match,
plus the path inside it. -/
def findTagPathChildren (t : String) : List Node → Option (Nat × Path)
  | [] => none
  | c :: cs =>
      match findTagPath t c with
      | some p => some (0, p)
      | none =>
          match findTagPathChildren t cs with
          | some (i, p) => some (i + 1, p)
          | none => none

end

/-- `soup.find(tag)` as a value. -/
def findTag (t : String) (doc : Node) : Option Node :=
  (findTagPath t doc).bind (getAt doc)

/-- The contribution of a single element to link discovery: its `href`
when it is an anchor carrying one. -/
def selfHref (t : String) (a : List (String × String)) : List String :=
  if t = "a" then
    match getAttr a "href" with
    | some h => [h]
    | none => []
  else []

mutual

/-- `soup.find_all('a', href=True)` projected to the `href` values: the
`href` attributes of anchor elements, in document order, duplicates
kept. -/
def anchorHrefs : Node → List String
  | .text _ => []
  | .elem t a cs => selfHref t a ++ anchorHrefsList cs

/-- List form of `anchorHrefs`. -/
def anchorHrefsList : List Node → List String
  | [] => []
  | c :: cs => anchorHrefs c ++ anchorHrefsList cs

end

/-- The noise tags decomposed from the content region
(scraper.py line 81). -/
def noiseTags : List String := ["script", "style", "nav", "footer"]

/-- Is this node a noise element? -/
def isNoise : Node → Bool
  | .elem t _ _ => noiseTags.contains t
  | .text _ => false

mutual

/-- `for tag in main_content(noiseTags): tag.decompose()` — remove every
descendant element whose tag is a noise tag (decomposing a node discards
its whole subtree). -/
def removeNoise : Node → Node
  | .text s => .text s
  | .elem t a cs => .elem t a (removeNoiseList cs)

/-- List form of `removeNoise`. -/
def removeNoiseList : List Node → List Node
  | [] => []
  | c :: cs =>
      if isNoise c then removeNoiseList cs
      else removeNoise c :: removeNoiseList cs

end

mutual

/-- Scraper.crawl lines 85–89: rewrite each anchor `href` and image
`src` to `urljoin(pageURL, value)`.  The source applies this to the
descendants of the content region via `find_all(['a','img'])`; the
region's own tag is `main`/`article`/`body`, never `a` or `img`, so the
uniform recursion below agrees with it on every reachable input. -/
def rewriteURLs (url : String) : Node → Node
  | .text s => .text s
  | .elem t a cs =>
      let a2 :=
        if t = "a" then
          match getAttr a "href" with
          | some h => setAttr a "href" (urljoin url h)
          | none => a
        else if t = "img" then
          match getAttr a "src" with
          | some h => setAttr a "src" (urljoin url h)
          | none => a
        else a
      .elem t a2 (rewriteURLsList url cs)

/-- List form of `rewriteURLs`. -/
def rewriteURLsList (url : String) : List Node → List Node
  | [] => []
  | c :: cs => rewriteURLs url c :: rewriteURLsList url cs

end

/-- BeautifulSoup `Tag.string`: the single string inside a tag — a text
node's own string; for an element, defined only when it has exactly one
child, recursively that child's string. -/
def nodeString : Node → Option String
  | .text s => some s
  | .elem _ _ [c] => nodeString c
  | .elem _ _ _ => none

/-! ## Content-region selection (scraper.py line 77)

`soup.find('main') or soup.find('article') or soup.find('body')` —
Python `or` keeps the left operand only when it is truthy, and an element
with no children is falsy, so an existing-but-empty candidate falls
through to the next one. -/

/-- Truthiness of the node a path points at (`None`/dangling is falsy). -/
def truthyAt (doc : Node) : Option Path → Bool
  | none => false
  | some p =>
      match getAt doc p with
      | some n => truthyNode n
      | none => false

/-- Python `x or y` over find results, tracked as paths. -/
def pyOrPath (doc : Node) (a b : Option Path) : Option Path :=
  if truthyAt doc a then a else b

/-- The path of `main_content` as line 77 computes it. -/
def regionPath (doc : Node) : Option Path :=
  pyOrPath doc (findTagPath "main" doc)
    (pyOrPath doc (findTagPath "article" doc) (findTagPath "body" doc))

/-- The value of `main_content`. -/
def regionOf (doc : Node) : Option Node :=
  (regionPath doc).bind (getAt doc)

/-- The document as it stands at line 99, when link discovery runs: if a
truthy content region was selected, the noise removal and URL rewriting
of lines 81–89 have mutated it in place inside the shared tree; otherwise
the tree is untouched. -/
def docAfterExtraction (url : String) (doc : Node) : Node :=
  match regionPath doc with
  | none => doc
  | some p =>
      match getAt doc p with
      | none => doc
      | some region =>
          if truthyNode region then
            mutateAt doc p (fun n => rewriteURLs url (removeNoise n))
          else doc

/-- Line 91: `soup.title.string if soup.title else url`.  `soup.title`
is the first `title` element; an empty one is falsy and falls through to
the URL.  The result is a Python value that may be `None`. -/
def pageTitle (doc : Node) (url : String) : Option String :=
  match findTag "title" doc with
  | some t => if truthyNode t then nodeString t else some url
  | none => some url

/-- Python str() of an optional string, as an f-string renders it. -/
def pyShow : Option String → String
  | none => "None"
  | some s => s

/-- Line 97: the page block appended to `markdown_content`. -/
def pageBlock (title : Option String) (url markdown : String) : String :=
  "# " ++ pyShow title ++ "\n\nURL: " ++ url ++ "\n\n" ++ markdown ++ "\n\n---\n\n"

/-! ## Markdown post-processing (scraper.py line 95) -/

/-- The replacement for a maximal run of `k` newlines under
`re.sub(r'\n{3,}', '\n\n', ·)`: three or more become exactly two, shorter
runs are kept. -/
def emitRun (k : Nat) : List Char :=
  if 3 ≤ k then ['\n', '\n'] else List.replicate k '\n'

mutual

/-- `re.sub(r'\n{3,}', '\n\n', s)`: replace every maximal run of three
or more newline characters by exactly two. -/
def collapseNL : List Char → List Char
  | [] => []
  | c :: rest => if c = '\n' then collapseRun 1 rest else c :: collapseNL rest

/-- Inside a newline run of length `k` so far. -/
def collapseRun (k : Nat) : List Char → List Char
  | [] => emitRun k
  | c :: rest =>
      if c = '\n' then collapseRun (k + 1) rest
      else emitRun k ++ c :: collapseNL rest

end

/-- Python `str.strip()` whitespace. -/
def isPySpace (c : Char) : Bool :=
  c == ' ' || c == '\t' || c == '\n' || c == '\r' || c == '\x0b' || c == '\x0c'

/-- `s.strip()` on a character list. -/
def pyStripL (cs : List Char) : List Char :=
  ((cs.dropWhile isPySpace).reverse.dropWhile isPySpace).reverse

/-- Line 95 in full: collapse newline runs, then strip. -/
def postProcess (s : String) : String :=
  String.mk (pyStripL (collapseNL s.toList))

/-! ## Crawl state and loop (`Scraper.__init__`, `Scraper.crawl`) -/

/-- The mutable state of a `Scraper` object.  `visited` and `seen_urls`
are Python sets, modelled as insertion-ordered lists (the code only ever
inserts an element after checking it is absent, so the lists stay
duplicate-free and `visited` records the processing order). -/
structure ScraperState where
  start_url : String
  base_domain : String
  base_path : String
  visited : List String
  seen_urls : List String
  queue : List String
  markdown_content : List String
  errors : List String
deriving Repr, DecidableEq

/-- `__init__` lines 24–27: `urlparse(start_url).path`, with a `/`
appended when the path does not end in `/` and its final segment has no
`.` in it. -/
def initBasePath (start_url : String) : String :=
  let p := urlpath start_url
  let cs := p.toList
  let lastSeg := cs.reverse.takeWhile (fun c => c ≠ '/')
  if !(cs.reverse.head? == some '/') && !(lastSeg.contains '.') then p ++ "/" else p

/-- `Scraper.__init__`: seed the queue with the start URL and its
normalized key, record the seed host. -/
def initState (start_url : String) : ScraperState :=
  { start_url := start_url
    base_domain := netloc start_url
    base_path := initBasePath start_url
    visited := []
    seen_urls := [normalize_url start_url]
    queue := [start_url]
    markdown_content := []
    errors := [] }

/-- `Scraper.is_valid_url` (lines 31–46): reject when the host differs
from the seed host; the commented subpath refinement (lines 41–44) is an
`if … pass` with no effect, so every same-host URL is accepted. -/
def is_valid_url (s : ScraperState) (url : String) : Bool :=
  if netloc url != s.base_domain then false
  else true

/-- External collaborators of the crawl loop: the headless-browser
render (`page.goto` + `page.content` + BeautifulSoup; `none` models the
exception path) and the markdown converter `markdownify`. -/
structure Collab where
  render : String → Option Node
  convert : Node → String

/-- Line 113: one console report per failed page attempt (the model
keeps the fixed prefix of the message). -/
def errMsg (url : String) : String :=
  "Error scraping " ++ url

/-- Lines 101–110, one discovered link: resolve it, then append it to
the queue and its key to `seen_urls` unless the scope filter rejects it
or the key is already visited or seen. -/
def pushLink (s : ScraperState) (full_url : String) : ScraperState :=
  if is_valid_url s full_url && !(s.visited.contains (normalize_url full_url))
      && !(s.seen_urls.contains (normalize_url full_url)) then
    { s with seen_urls := s.seen_urls ++ [normalize_url full_url],
             queue := s.queue ++ [full_url] }
  else s

/-- Lines 100–110: the link-discovery loop over
`soup.find_all('a', href=True)`. -/
def pushLinks (url : String) (hrefs : List String) (s : ScraperState) : ScraperState :=
  hrefs.foldl (fun st h => pushLink st (urljoin url h)) s

/-- Lines 77–97: when a truthy content region was selected, append the
page block built from the (post-mutation) title, the URL and the
converted, post-processed content region. -/
def contentAppend (c : Collab) (url : String) (doc : Node) (s : ScraperState) : ScraperState :=
  match regionOf doc with
  | some region =>
      if truthyNode region then
        { s with markdown_content := s.markdown_content ++
            [pageBlock (pageTitle (docAfterExtraction url doc) url) url
              (postProcess (c.convert (rewriteURLs url (removeNoise region))))] }
      else s
  | none => s

/-- Lines 74–110, the body of the `try` block after a successful render:
run the extraction pipeline, append the page block when a truthy content
region exists, then discover links on the (mutated) document. -/
def processDoc (c : Collab) (url : String) (doc : Node) (s : ScraperState) : ScraperState :=
  pushLinks url (anchorHrefs (docAfterExtraction url doc)) (contentAppend c url doc s)

/-- Lines 71–113: the whole `try`/`except` — a failed render appends one
error report and nothing else; a successful render is processed. -/
def attemptPage (c : Collab) (url : String) (s : ScraperState) : ScraperState :=
  match c.render url with
  | none => { s with errors := s.errors ++ [errMsg url] }
  | some doc => processDoc c url doc s

/-- Line 68: `self.visited.add(normalized_url)`. -/
def markVisited (n : String) (s : ScraperState) : ScraperState :=
  { s with visited := s.visited ++ [n] }

/-- Line 62: `url = self.queue.pop(0)` — FIFO removal of the
earliest-queued URL. -/
def popFrontier (s : ScraperState) : Option (String × ScraperState) :=
  match s.queue with
  | [] => none
  | u :: rest => some (u, { s with queue := rest })

/-- One iteration of the `while self.queue:` loop (lines 61–113): pop,
discard when the key is already visited, otherwise mark visited and
attempt the page. -/
def step (c : Collab) (s : ScraperState) : ScraperState :=
  match popFrontier s with
  | none => s
  | some (url, s1) =>
      if s1.visited.contains (normalize_url url) then s1
      else attemptPage c url (markVisited (normalize_url url) s1)

/-- The crawl loop, fuelled: the Python loop runs until the queue
empties (the source imposes no bound of its own). -/
def crawl (c : Collab) : Nat → ScraperState → ScraperState
  | 0, s => s
  | fuel + 1, s => if s.queue.isEmpty then s else crawl c fuel (step c s)

/-! ## Derived observables and spec-side comparators -/

/-- Lines 100–102 as a sequence: the `full_url` values the link-discovery
loop computes, in document order, duplicates kept — link discovery runs
over the document as it stands after the extraction phase. -/
def discoveredLinks (url : String) (doc : Node) : List String :=
  (anchorHrefs (docAfterExtraction url doc)).map (fun h => urljoin url h)

/-- Modelled from the spec (§4.4 step 5): link discovery scans the entire
*original* document for anchors with a link target and resolves each to
absolute form, in document order, duplicates kept. -/
def specDiscoveredLinks (url : String) (doc : Node) : List String :=
  (anchorHrefs doc).map (fun h => urljoin url h)

/-- The document after only the noise removal of line 81 (no URL
rewriting): the content region, which aliases the document tree, has its
noise subtrees removed. -/
def docNoiseCleaned (doc : Node) : Node :=
  match regionPath doc with
  | none => doc
  | some p =>
      match getAt doc p with
      | none => doc
      | some region =>
          if truthyNode region then mutateAt doc p removeNoise else doc

/-- Modelled from the spec (§4.1): strip everything from the first `#`
onward, then strip exactly one trailing `/` if one is present. -/
def specNormalize (url : String) : String :=
  let base := url.toList.takeWhile (fun c => c ≠ '#')
  String.mk (match base.reverse with
    | '/' :: rest => rest.reverse
    | _ => base)

/-- Modelled from the spec (§4.4 step 1): content-region selection by
first-match **existence** priority — a `main` element, else an `article`
element, else the document body. -/
def specRegionOf (doc : Node) : Option Node :=
  match findTag "main" doc with
  | some m => some m
  | none =>
      match findTag "article" doc with
      | some m => some m
      | none => findTag "body" doc

/-! ## Concrete fixtures used by witnesses and counterexamples -/

/-- Seed page of the BFS example: title `S`, body linking to `A` then
`B`. -/
def docS : Node :=
  .elem "[document]" [] [.elem "html" []
    [.elem "head" [] [.elem "title" [] [.text "S"]],
     .elem "body" [] [.elem "a" [("href", "http://h/a")] [.text "A"],
                      .elem "a" [("href", "http://h/b")] [.text "B"]]]]

/-- Page `A` of the BFS example, linking to `C`. -/
def docA : Node :=
  .elem "[document]" [] [.elem "html" []
    [.elem "body" [] [.elem "a" [("href", "http://h/c")] [.text "C"]]]]

/-- Page `B` of the BFS example, no links. -/
def docB : Node :=
  .elem "[document]" [] [.elem "html" [] [.elem "body" [] [.text "b"]]]

/-- Page `C` of the BFS example, no links. -/
def docC : Node :=
  .elem "[document]" [] [.elem "html" [] [.elem "body" [] [.text "c"]]]

/-- Collaborators for the BFS example: four same-host pages, a trivial
converter. -/
def bfsCollab : Collab :=
  { render := fun u =>
      if u = "http://h/s" then some docS
      else if u = "http://h/a" then some docA
      else if u = "http://h/b" then some docB
      else if u = "http://h/c" then some docC
      else none
    convert := fun _ => "" }

/-- Collaborators whose render always fails. -/
def failCollab : Collab :=
  { render := fun _ => none, convert := fun _ => "" }

/-- A document whose content region (`main`) holds its only link inside
a `nav` noise subtree. -/
def docNavLink : Node :=
  .elem "[document]" [] [.elem "html" []
    [.elem "body" [] [.elem "main" []
      [.elem "nav" [] [.elem "a" [("href", "http://h/x")] [.text "L"]]]]]]

/-- A document with an *empty* `main` element and a non-empty `article`
element. -/
def docEmptyMain : Node :=
  .elem "[document]" [] [.elem "html" []
    [.elem "body" [] [.elem "main" [] [], .elem "article" [] [.text "y"]]]]

/-- A document with an *empty* `title` element. -/
def docEmptyTitle : Node :=
  .elem "[document]" [] [.elem "html" []
    [.elem "head" [] [.elem "title" [] []], .elem "body" [] [.text "x"]]]

/-- A document whose `title` element is non-empty but has no string
content (its single child is a childless element). -/
def docOpaqueTitle : Node :=
  .elem "[document]" [] [.elem "html" []
    [.elem "head" [] [.elem "title" [] [.elem "b" [] []]],
     .elem "body" [] [.text "x"]]]

/-! ## General list lemmas -/

/-- `takeWhile` walks through a prefix whose elements all satisfy the
predicate. -/
theorem takeWhile_append_all {α : Type} {p : α → Bool} {l1 : List α}
    (h : ∀ x ∈ l1, p x = true) (l2 : List α) :
    (l1 ++ l2).takeWhile p = l1 ++ l2.takeWhile p := by
  induction l1 with
  | nil => simp
  | cons a t ih =>
      have ha : p a = true := h a (by simp)
      simp [List.takeWhile_cons, ha, ih (fun x hx => h x (by simp [hx]))]

/-- `dropWhile` swallows a prefix whose elements all satisfy the
predicate. -/
theorem dropWhile_append_all {α : Type} {p : α → Bool} {l1 : List α}
    (h : ∀ x ∈ l1, p x = true) (l2 : List α) :
    (l1 ++ l2).dropWhile p = l2.dropWhile p := by
  induction l1 with
  | nil => simp
  | cons a t ih =>
      have ha : p a = true := h a (by simp)
      simp [List.dropWhile_cons, ha, ih (fun x hx => h x (by simp [hx]))]

/-- `takeWhile` never reads past a failing element. -/
theorem takeWhile_append_stop {α : Type} {p : α → Bool} {l1 : List α}
    (h : ∃ x ∈ l1, p x = false) (l2 : List α) :
    (l1 ++ l2).takeWhile p = l1.takeWhile p := by
  induction l1 with
  | nil =>
      obtain ⟨x, hx, _⟩ := h
      simp at hx
  | cons a t ih =>
      by_cases ha : p a = true
      · obtain ⟨x, hx, hpx⟩ := h
        have hxt : x ∈ t := by
          rcases List.mem_cons.mp hx with rfl | hmem
          · rw [ha] at hpx; cases hpx
          · exact hmem
        simp [List.takeWhile_cons, ha, ih ⟨x, hxt, hpx⟩]
      · have ha2 : p a = false := by
          cases hpa : p a
          · rfl
          · exact absurd hpa ha
        simp [List.takeWhile_cons, ha2]

/-! ## Normalization lemmas -/

/-- Every character of a normalized URL comes from the fragment-free
part: none of them is `#`. -/
theorem normalize_no_hash (u : String) : ∀ c ∈ (normalize_url u).toList, c ≠ '#' := by
  intro c hc
  have h1 : c ∈ (u.toList.takeWhile (fun c => c ≠ '#')).reverse.dropWhile
      (fun c => c = '/') := by
    simpa [normalize_url] using hc
  have h2 : c ∈ u.toList.takeWhile (fun c2 => decide (c2 ≠ '#')) := by
    have := (List.dropWhile_suffix (l := (u.toList.takeWhile
      (fun c => c ≠ '#')).reverse) (fun c => c = '/')).subset h1
    simpa using this
  simpa using List.mem_takeWhile_imp h2

/-- A normalized URL does not end in `/`. -/
theorem normalize_no_trailing (u : String) :
    (normalize_url u).toList.reverse.head? ≠ some '/' := by
  intro h
  have hrev : (normalize_url u).toList.reverse
      = (u.toList.takeWhile (fun c => c ≠ '#')).reverse.dropWhile (fun c => c = '/') := by
    simp [normalize_url]
  rw [hrev] at h
  have := List.head?_dropWhile_not (fun c => decide (c = '/'))
    ((u.toList.takeWhile (fun c => c ≠ '#')).reverse)
  rw [h] at this
  simp at this

/-- C5 helper: normalization is idempotent. -/
theorem normalize_idem (u : String) :
    normalize_url (normalize_url u) = normalize_url u := by
  have hhash : ∀ c ∈ (normalize_url u).toList, (fun c => decide (c ≠ '#')) c = true := by
    intro c hc
    simpa using normalize_no_hash u c hc
  have htw : (normalize_url u).toList.takeWhile (fun c => c ≠ '#')
      = (normalize_url u).toList :=
    List.takeWhile_eq_self_iff.mpr hhash
  have hrev : (normalize_url u).toList.reverse
      = (u.toList.takeWhile (fun c => c ≠ '#')).reverse.dropWhile (fun c => c = '/') := by
    simp [normalize_url]
  show String.mk _ = _
  rw [htw, hrev, List.dropWhile_idempotent]
  simp [normalize_url]

/-- C5: the claim asserts `normalize` removes exactly one trailing slash;
`rstrip('/')` removes them all: on `http://h/a//` the code yields
`http://h/a`, the claim demands `http://h/a/`. -/
theorem C5_counterexample :
    normalize_url "http://h/a//" = "http://h/a" ∧
    specNormalize "http://h/a//" = "http://h/a/" ∧
    normalize_url "http://h/a//" ≠ specNormalize "http://h/a//" := by
  refine ⟨rfl, rfl, ?_⟩
  decide

/-- C5 (amended): `normalize_url` removes everything from the first `#`
onward and then removes **all** trailing `/` characters; it is total (a
Lean function), idempotent, and its result contains no `#` and does not
end in `/`. -/
theorem C5_theorem (u : String) :
    normalize_url (normalize_url u) = normalize_url u ∧
    (∀ c ∈ (normalize_url u).toList, c ≠ '#') ∧
    (normalize_url u).toList.reverse.head? ≠ some '/' ∧
    normalize_url u = String.mk (((u.toList.takeWhile (fun c => c ≠ '#')).reverse.dropWhile
      (fun c => c = '/')).reverse) :=
  ⟨normalize_idem u, normalize_no_hash u, normalize_no_trailing u, rfl⟩

/-- C5 witness: the amended statement evaluated on a concrete URL with a
fragment and two trailing slashes. -/
theorem C5_witness :
    normalize_url (normalize_url "http://h/a//#frag") = normalize_url "http://h/a//#frag" ∧
    ('h' ∈ (normalize_url "http://h/a//#frag").toList → 'h' ≠ '#') ∧
    (normalize_url "http://h/a//#frag").toList.reverse.head? ≠ some '/' :=
  ⟨(C5_theorem ("http://h/a//#frag")).1,
   fun hm => (C5_theorem ("http://h/a//#frag")).2.1 'h' hm,
   (C5_theorem ("http://h/a//#frag")).2.2.1⟩

/-! ## Newline-collapsing lemmas -/

/-- Running through `j` further newlines accumulates them into the
current run. -/
theorem collapseRun_replicate (k j : Nat) (b : Char) (hb : b ≠ '\n') (rest : List Char) :
    collapseRun k (List.replicate j '\n' ++ b :: rest)
      = emitRun (k + j) ++ b :: collapseNL rest := by
  induction j generalizing k with
  | zero => simp [collapseRun, hb]
  | succ j ih =>
      rw [List.replicate_succ, List.cons_append]
      show collapseRun k ('\n' :: (List.replicate j '\n' ++ b :: rest)) = _
      rw [collapseRun, if_pos rfl, ih (k + 1)]
      have : k + 1 + j = k + (j + 1) := by omega
      rw [this]

/-- A maximal newline run of length `k` (delimited by a non-newline
character) is replaced by `emitRun k`. -/
theorem collapseNL_replicate (k : Nat) (b : Char) (hb : b ≠ '\n') (rest : List Char) :
    collapseNL (List.replicate k '\n' ++ b :: rest) = emitRun k ++ b :: collapseNL rest := by
  cases k with
  | zero => simp [collapseNL, hb, emitRun]
  | succ j =>
      rw [List.replicate_succ, List.cons_append]
      show collapseNL ('\n' :: (List.replicate j '\n' ++ b :: rest)) = _
      rw [collapseNL, if_pos rfl, collapseRun_replicate 1 j b hb rest]
      have : 1 + j = j + 1 := by omega
      rw [this]

/-- C3: the claim asserts single and double blank lines are left
unchanged; the code's `re.sub(r'\n{3,}', '\n\n', ·)` collapses a double
blank line (three newline characters) into a single blank line. -/
theorem C3_counterexample :
    postProcess "a\n\n\nb" = "a\n\nb" ∧ postProcess "a\n\n\nb" ≠ "a\n\n\nb" :=
  ⟨rfl, by decide⟩

/-- C3 (amended): post-processing replaces every maximal run of three or
more newline characters (two or more blank lines) by exactly two newlines
(one blank line) and keeps shorter runs — so four consecutive blank lines
become one, a single blank line is unchanged, but a double blank line
also becomes one — and then trims leading/trailing whitespace. -/
theorem C3_theorem (k : Nat) (b : Char) (rest : List Char) (hb : b ≠ '\n') :
    collapseNL (List.replicate k '\n' ++ b :: rest)
      = (if 3 ≤ k then ['\n', '\n'] else List.replicate k '\n') ++ b :: collapseNL rest ∧
    postProcess "a\n\n\n\n\nb" = "a\n\nb" ∧
    postProcess "a\n\nb" = "a\n\nb" ∧
    postProcess "a\nb" = "a\nb" :=
  ⟨by rw [collapseNL_replicate k b hb rest]; rfl, rfl, rfl, rfl⟩

/-- C3 witness: the run-collapsing law evaluated at a concrete run of
five newlines (four blank lines). -/
theorem C3_witness :
    collapseNL (List.replicate 5 '\n' ++ 'b' :: [])
      = (if 3 ≤ 5 then ['\n', '\n'] else List.replicate 5 '\n') ++ 'b' :: collapseNL [] :=
  (C3_theorem 5 'b' [] (by decide)).1

/-! ## Scope filter -/

/-- C6: `is_valid_url` accepts a candidate iff its host equals the seed
host recorded in `base_domain`; the half-written subpath refinement is
inert, so a same-host candidate is never rejected for any other
reason.  With the initial state, the comparison is against the seed
URL's host. -/
theorem C6_theorem (s : ScraperState) (url seed : String) :
    (is_valid_url s url = true ↔ netloc url = s.base_domain) ∧
    (is_valid_url (initState seed) url = true ↔ netloc url = netloc seed) := by
  constructor
  · by_cases h : netloc url = s.base_domain <;> simp [is_valid_url, h]
  · by_cases h : netloc url = netloc seed <;> simp [is_valid_url, initState, h]

/-- C6 witness: a same-host candidate is accepted for the seed
`http://h/s`. -/
theorem C6_witness : is_valid_url (initState "http://h/s") "http://h/a" = true :=
  (C6_theorem (initState "http://h/s") "http://h/a" "http://h/s").2.mpr rfl

/-! ## Title extraction -/

/-- C10: the claim says an *empty* title element also yields the literal
heading text `None`; in the code an empty `title` tag is falsy
(`Tag.__len__` is its child count), so `soup.title.string if soup.title
else url` falls through to the URL instead. -/
theorem C10_counterexample :
    findTag "title" docEmptyTitle = some (Node.elem "title" [] []) ∧
    nodeString (Node.elem "title" [] []) = none ∧
    pageTitle docEmptyTitle "http://h/p" = some "http://h/p" ∧
    pyShow (pageTitle docEmptyTitle "http://h/p") ≠ "None" :=
  ⟨rfl, rfl, rfl, by decide⟩

/-- C10 (amended): when the document's first `title` element is truthy
(has children) but its extracted string content is absent, the rendered
title is the literal text `None`, not the page URL; the URL is used when
the `title` element is falsy (childless) or missing entirely. -/
theorem C10_theorem (doc : Node) (url : String) (t : Node) :
    (findTag "title" doc = some t → truthyNode t = true → nodeString t = none →
      pyShow (pageTitle doc url) = "None") ∧
    (findTag "title" doc = some t → truthyNode t = false → pageTitle doc url = some url) ∧
    (findTag "title" doc = none → pageTitle doc url = some url) := by
  refine ⟨fun h1 h2 h3 => ?_, fun h1 h2 => ?_, fun h1 => ?_⟩
  · simp [pageTitle, h1, h2, h3, pyShow]
  · simp [pageTitle, h1, h2]
  · simp [pageTitle, h1]

/-- C10 witness: a non-empty `title` whose single child is a childless
element renders as `None`; a document with no `title` falls back to the
URL. -/
theorem C10_witness :
    pyShow (pageTitle docOpaqueTitle "http://h/p") = "None" ∧
    pageTitle docB "http://h/p" = some "http://h/p" :=
  ⟨(C10_theorem docOpaqueTitle "http://h/p"
      (Node.elem "title" [] [Node.elem "b" [] []])).1 rfl rfl rfl,
   (C10_theorem docB "http://h/p" (Node.text "")).2.2 rfl⟩

/-! ## State-field preservation helpers -/

/-- `pushLink` touches only `seen_urls` and `queue`. -/
theorem pushLink_fields (s : ScraperState) (u : String) :
    (pushLink s u).visited = s.visited ∧
    (pushLink s u).markdown_content = s.markdown_content ∧
    (pushLink s u).errors = s.errors := by
  unfold pushLink
  split <;> simp

/-- `pushLinks` touches only `seen_urls` and `queue`. -/
theorem pushLinks_fields (url : String) (hs : List String) (s : ScraperState) :
    (pushLinks url hs s).visited = s.visited ∧
    (pushLinks url hs s).markdown_content = s.markdown_content ∧
    (pushLinks url hs s).errors = s.errors := by
  induction hs generalizing s with
  | nil => simp [pushLinks]
  | cons h t ih =>
      have hstep := pushLink_fields s (urljoin url h)
      have hrec := ih (pushLink s (urljoin url h))
      have hdef : pushLinks url (h :: t) s = pushLinks url t (pushLink s (urljoin url h)) := rfl
      rw [hdef]
      exact ⟨hrec.1.trans hstep.1, hrec.2.1.trans hstep.2.1, hrec.2.2.trans hstep.2.2⟩

/-! ## Content-region selection lemmas -/

/-- Truthiness through a path is truthiness of the pointed-at node. -/
theorem truthyAt_bind (doc : Node) (op : Option Path) :
    truthyAt doc op = truthyOpt (op.bind (getAt doc)) := by
  cases op with
  | none => rfl
  | some p =>
      show (match getAt doc p with | some n => truthyNode n | none => false)
        = truthyOpt (getAt doc p)
      cases getAt doc p <;> rfl

/-- `contentAppend` touches only `markdown_content`. -/
theorem contentAppend_fields (c : Collab) (url : String) (doc : Node) (s : ScraperState) :
    (contentAppend c url doc s).visited = s.visited ∧
    (contentAppend c url doc s).seen_urls = s.seen_urls ∧
    (contentAppend c url doc s).queue = s.queue ∧
    (contentAppend c url doc s).errors = s.errors := by
  cases h : regionOf doc with
  | none => simp [contentAppend, h]
  | some region =>
      by_cases ht : truthyNode region = true <;> simp [contentAppend, h, ht]

/-- A falsy (or missing) content region leaves the document tree
untouched at link-discovery time. -/
theorem docAfterExtraction_falsy (url : String) (doc : Node)
    (h : truthyOpt (regionOf doc) = false) :
    docAfterExtraction url doc = doc := by
  unfold docAfterExtraction
  cases hp : regionPath doc with
  | none => rfl
  | some p =>
      cases hg : getAt doc p with
      | none => simp [hg]
      | some region =>
          have hro : regionOf doc = some region := by
            unfold regionOf; rw [hp]; exact hg
          rw [hro] at h
          have : truthyNode region = false := h
          simp [hg, this]

/-- A falsy (or missing) content region appends nothing. -/
theorem contentAppend_falsy (c : Collab) (url : String) (doc : Node) (s : ScraperState)
    (h : truthyOpt (regionOf doc) = false) :
    contentAppend c url doc s = s := by
  unfold contentAppend
  cases hro : regionOf doc with
  | none => rfl
  | some region =>
      rw [hro] at h
      have : truthyNode region = false := h
      simp [this]

/-- C9: the claim says selection is by first-match existence priority; in
the code `find('main') or find('article') or find('body')` skips an
existing-but-empty (falsy) candidate, so a document with an empty `main`
and a non-empty `article` selects the `article`. -/
theorem C9_counterexample :
    (specRegionOf docEmptyMain).map tagOf = some "main" ∧
    (regionOf docEmptyMain).map tagOf = some "article" ∧
    regionOf docEmptyMain ≠ specRegionOf docEmptyMain := by
  refine ⟨rfl, rfl, fun h => ?_⟩
  have h2 := congrArg (Option.map tagOf) h
  rw [show (regionOf docEmptyMain).map tagOf = some "article" from rfl,
      show (specRegionOf docEmptyMain).map tagOf = some "main" from rfl] at h2
  exact absurd h2 (by decide)

/-- C9 (amended): exactly one content region is selected, by first
**truthy** match priority — the first `main` element when truthy, else
the first `article` element when truthy, else the first `body` element —
an existing but childless candidate being skipped; and when no truthy
region exists the page is still processed successfully: nothing is
appended, no error is recorded, and link discovery proceeds over the
untouched document. -/
theorem C9_theorem (c : Collab) (doc : Node) (url : String) (s : ScraperState) :
    (truthyOpt (findTag "main" doc) = true → regionOf doc = findTag "main" doc) ∧
    (truthyOpt (findTag "main" doc) = false → truthyOpt (findTag "article" doc) = true →
      regionOf doc = findTag "article" doc) ∧
    (truthyOpt (findTag "main" doc) = false → truthyOpt (findTag "article" doc) = false →
      regionOf doc = findTag "body" doc) ∧
    (truthyOpt (regionOf doc) = false →
      processDoc c url doc s = pushLinks url (anchorHrefs doc) s ∧
      (processDoc c url doc s).markdown_content = s.markdown_content ∧
      (processDoc c url doc s).errors = s.errors) := by
  have hm := truthyAt_bind doc (findTagPath "main" doc)
  have ha := truthyAt_bind doc (findTagPath "article" doc)
  refine ⟨fun h1 => ?_, fun h1 h2 => ?_, fun h1 h2 => ?_, fun h1 => ?_⟩
  · have hA : truthyAt doc (findTagPath "main" doc) = true := by
      rw [hm]; exact h1
    unfold regionOf regionPath pyOrPath
    rw [hA]
    simp [findTag]
  · have hA : truthyAt doc (findTagPath "main" doc) = false := by
      rw [hm]; exact h1
    have hB : truthyAt doc (findTagPath "article" doc) = true := by
      rw [ha]; exact h2
    unfold regionOf regionPath pyOrPath
    rw [hA, hB]
    simp [findTag]
  · have hA : truthyAt doc (findTagPath "main" doc) = false := by
      rw [hm]; exact h1
    have hB : truthyAt doc (findTagPath "article" doc) = false := by
      rw [ha]; exact h2
    unfold regionOf regionPath pyOrPath
    rw [hA, hB]
    simp [findTag]
  · have hd := docAfterExtraction_falsy url doc h1
    have hc := contentAppend_falsy c url doc s h1
    have hp : processDoc c url doc s = pushLinks url (anchorHrefs doc) s := by
      unfold processDoc
      rw [hd, hc]
    refine ⟨hp, ?_, ?_⟩
    · rw [hp, (pushLinks_fields _ _ _).2.1]
    · rw [hp, (pushLinks_fields _ _ _).2.2]

/-- C9 witness: on the BFS example seed page (no `main`, no `article`,
truthy `body`) the body is selected; on a link-only page with a falsy
region nothing is appended. -/
theorem C9_witness :
    regionOf docS = findTag "body" docS ∧
    (processDoc failCollab "http://h/e" (Node.elem "[document]" [] []) (initState "http://h/e")).markdown_content
      = (initState "http://h/e").markdown_content :=
  ⟨(C9_theorem failCollab docS "http://h/s" (initState "http://h/s")).2.2.1 rfl rfl,
   ((C9_theorem failCollab (Node.elem "[document]" [] []) "http://h/e"
      (initState "http://h/e")).2.2.2 rfl).2.1⟩

/-! ## Crawl-loop lemmas -/

/-- A `contains` that returns `false` really means absence. -/
theorem contains_false_not_mem {l : List String} {a : String}
    (h : l.contains a = false) : a ∉ l := by
  intro hm
  rw [show l.contains a = l.elem a from rfl, List.elem_iff.mpr hm] at h
  exact Bool.noConfusion h

/-- The page attempt itself never modifies `visited` (marking happened
before it). -/
theorem attemptPage_visited (c : Collab) (url : String) (s : ScraperState) :
    (attemptPage c url s).visited = s.visited := by
  unfold attemptPage
  cases c.render url with
  | none => rfl
  | some doc =>
      show (processDoc c url doc s).visited = s.visited
      unfold processDoc
      rw [(pushLinks_fields _ _ _).1, (contentAppend_fields c url doc s).1]

/-- An empty queue makes `step` the identity. -/
theorem step_nil (c : Collab) (s : ScraperState) (h : s.queue = []) : step c s = s := by
  simp [step, popFrontier, h]

/-- A popped URL whose normalized key is already visited is discarded:
the step only removes it from the queue. -/
theorem step_discard (c : Collab) (s : ScraperState) (u : String) (rest : List String)
    (hq : s.queue = u :: rest) (hv : s.visited.contains (normalize_url u) = true) :
    step c s = { s with queue := rest } := by
  have hm : normalize_url u ∈ s.visited := List.elem_iff.mp hv
  simp [step, popFrontier, hq, hm]

/-- A popped URL whose normalized key is fresh is marked visited first
and then attempted. -/
theorem step_attempt (c : Collab) (s : ScraperState) (u : String) (rest : List String)
    (hq : s.queue = u :: rest) (hv : s.visited.contains (normalize_url u) = false) :
    step c s = attemptPage c u (markVisited (normalize_url u) { s with queue := rest }) := by
  have hm : normalize_url u ∉ s.visited := contains_false_not_mem hv
  simp [step, popFrontier, hq, hm]

/-- Each step either leaves `visited` unchanged or appends one key that
was not yet there. -/
theorem step_visited_sub (c : Collab) (s : ScraperState) :
    (step c s).visited = s.visited ∨
    ∃ n, s.visited.contains n = false ∧ (step c s).visited = s.visited ++ [n] := by
  cases hq : s.queue with
  | nil => left; rw [step_nil c s hq]
  | cons u rest =>
      cases hv : s.visited.contains (normalize_url u) with
      | true => left; rw [step_discard c s u rest hq hv]
      | false =>
          right
          refine ⟨normalize_url u, hv, ?_⟩
          rw [step_attempt c s u rest hq hv, attemptPage_visited]
          rfl

/-- The processed sequence (`visited` in insertion order) stays
duplicate-free across the whole run. -/
theorem crawl_nodup (c : Collab) (f : Nat) (s : ScraperState) (h : s.visited.Nodup) :
    (crawl c f s).visited.Nodup := by
  induction f generalizing s with
  | zero => exact h
  | succ f ih =>
      show (if s.queue.isEmpty then s else crawl c f (step c s)).visited.Nodup
      by_cases hq : s.queue.isEmpty = true
      · rw [if_pos hq]; exact h
      · rw [if_neg hq]
        apply ih
        rcases step_visited_sub c s with heq | ⟨n, hn, heq⟩
        · rw [heq]; exact h
        · rw [heq]
          refine List.nodup_append.mpr ⟨h, List.nodup_singleton n, ?_⟩
          intro a ha hb
          rw [List.mem_singleton] at hb
          subst hb
          exact contains_false_not_mem hn ha

/-! ## Normalization under slash / fragment appending -/

/-- Appending a trailing slash does not change the normalized key. -/
theorem normalize_append_slash (u : String) :
    normalize_url (u ++ "/") = normalize_url u := by
  unfold normalize_url
  have hdata : (u ++ "/").toList = u.toList ++ ['/'] := by
    simp [String.toList, String.data_append]
  rw [hdata]
  by_cases hh : '#' ∈ u.toList
  · rw [takeWhile_append_stop ⟨'#', hh, by simp⟩]
  · have hall : ∀ c ∈ u.toList, (fun c => decide (c ≠ '#')) c = true := by
      intro c hc
      simp only [decide_eq_true_eq]
      exact fun he => hh (he ▸ hc)
    rw [takeWhile_append_all hall,
        show (['/'] : List Char).takeWhile (fun c => c ≠ '#') = ['/'] from rfl,
        List.takeWhile_eq_self_iff.mpr hall, List.reverse_append]
    rfl

/-- Appending a fragment does not change the normalized key. -/
theorem normalize_append_hash (u frag : String) :
    normalize_url (u ++ "#" ++ frag) = normalize_url u := by
  unfold normalize_url
  have hdata : (u ++ "#" ++ frag).toList = u.toList ++ '#' :: frag.toList := by
    simp [String.toList, String.data_append]
  rw [hdata]
  by_cases hh : '#' ∈ u.toList
  · rw [takeWhile_append_stop ⟨'#', hh, by simp⟩]
  · have hall : ∀ c ∈ u.toList, (fun c => decide (c ≠ '#')) c = true := by
      intro c hc
      simp only [decide_eq_true_eq]
      exact fun he => hh (he ▸ hc)
    rw [takeWhile_append_all hall,
        show ('#' :: frag.toList).takeWhile (fun c => c ≠ '#') = [] from rfl,
        List.takeWhile_eq_self_iff.mpr hall, List.append_nil]

/-! ## Frontier dedup (C1) -/

/-- A push whose normalized key is already seen is a no-op. -/
theorem pushLink_seen_noop (s : ScraperState) (u : String)
    (h : s.seen_urls.contains (normalize_url u) = true) : pushLink s u = s := by
  unfold pushLink
  rw [h]
  simp

/-- C1: within one run the engine never processes the same normalized
key twice — a push whose key is seen adds nothing, a popped URL whose
key is visited is discarded without processing, fragment-only or
trailing-slash-only variants share one key, and the processed sequence
(`visited` in insertion order) stays duplicate-free. -/
theorem C1_theorem (c : Collab) (s : ScraperState) (u : String) (rest : List String) (f : Nat) :
    (s.seen_urls.contains (normalize_url u) = true → pushLink s u = s) ∧
    (s.queue = u :: rest → s.visited.contains (normalize_url u) = true →
      step c s = { s with queue := rest }) ∧
    normalize_url (u ++ "/") = normalize_url u ∧
    (∀ frag, normalize_url (u ++ "#" ++ frag) = normalize_url u) ∧
    (s.visited.Nodup → (crawl c f s).visited.Nodup) :=
  ⟨pushLink_seen_noop s u, step_discard c s u rest,
   normalize_append_slash u, normalize_append_hash u, crawl_nodup c f s⟩

/-- C1 witness: the dedup facts evaluated on the BFS example — the seed
push is a no-op (its key is seeded into `seen_urls`), a seed re-queued
after being visited is discarded, and the four-page crawl's processed
sequence is duplicate-free. -/
theorem C1_witness :
    pushLink (initState "http://h/s") "http://h/s#frag" = initState "http://h/s" ∧
    step bfsCollab
        { initState "http://h/s" with
              visited := ["http://h/s"]
              queue := ["http://h/s/"] }
      = { initState "http://h/s" with
              visited := ["http://h/s"]
              queue := [] } ∧
    (crawl bfsCollab 5 (initState "http://h/s")).visited.Nodup := by
  have h := C1_theorem bfsCollab (initState "http://h/s") "http://h/s#frag" [] 5
  have h2 := C1_theorem bfsCollab
    { initState "http://h/s" with
          visited := ["http://h/s"]
          queue := ["http://h/s/"] }
    "http://h/s/" [] 5
  have h3 := C1_theorem bfsCollab (initState "http://h/s") "x" [] 5
  exact ⟨h.1 rfl, h2.2.1 rfl rfl, h3.2.2.2.2 (by decide)⟩

/-! ## Visited marking (C4) -/

/-- C4: the claim places the `visited` insertion at the *completion* of
the processing attempt; the code inserts it *before* the attempt
(line 68 precedes the `try` block), as the decomposition of `step` shows
on a concrete run: the key is already in `visited` in the intermediate
state, and the attempt itself adds nothing. -/
theorem C4_counterexample :
    (markVisited (normalize_url "http://h/a")
        { initState "http://h/a" with queue := [] }).visited.contains
          (normalize_url "http://h/a") = true ∧
    (attemptPage failCollab "http://h/a"
        (markVisited (normalize_url "http://h/a")
          { initState "http://h/a" with queue := [] })).visited
      = (markVisited (normalize_url "http://h/a")
          { initState "http://h/a" with queue := [] }).visited ∧
    step failCollab (initState "http://h/a")
      = attemptPage failCollab "http://h/a"
          (markVisited (normalize_url "http://h/a")
            { initState "http://h/a" with queue := [] }) :=
  ⟨rfl, rfl, rfl⟩

/-- C4 (amended): each processed URL's normalized key enters
`VisitedSet` exactly once, at the moment its processing attempt
*begins* — right after the pop and the dedup check, before any I/O —
and never again afterwards: the step is mark-then-attempt, the attempt
itself never touches `visited`, and the visited sequence stays
duplicate-free. -/
theorem C4_theorem (c : Collab) (s : ScraperState) (url : String) (rest : List String) (f : Nat)
    (hq : s.queue = url :: rest)
    (hv : s.visited.contains (normalize_url url) = false) :
    step c s = attemptPage c url (markVisited (normalize_url url) { s with queue := rest }) ∧
    (markVisited (normalize_url url) { s with queue := rest }).visited
      = s.visited ++ [normalize_url url] ∧
    (∀ c2 u2 s2, (attemptPage c2 u2 s2).visited = s2.visited) ∧
    (s.visited.Nodup → (crawl c f s).visited.Nodup) :=
  ⟨step_attempt c s url rest hq hv, rfl,
   fun c2 u2 s2 => attemptPage_visited c2 u2 s2, crawl_nodup c f s⟩

/-- C4 witness: the mark-then-attempt decomposition on the BFS example
seed. -/
theorem C4_witness :
    step bfsCollab (initState "http://h/s")
      = attemptPage bfsCollab "http://h/s"
          (markVisited (normalize_url "http://h/s")
            { initState "http://h/s" with queue := [] }) ∧
    (markVisited (normalize_url "http://h/s")
        { initState "http://h/s" with queue := [] }).visited
      = (initState "http://h/s").visited ++ [normalize_url "http://h/s"] := by
  have h := C4_theorem bfsCollab (initState "http://h/s") "http://h/s" [] 0 rfl rfl
  exact ⟨h.1, h.2.1⟩

/-! ## FIFO order and BFS (C7) -/

/-- C7: `pop` removes and returns the earliest-queued URL (FIFO), and on
the example graph — seed `S` linking to `A` then `B`, `A` linking to
`C` — the visitation order is `S, A, B, C`. -/
theorem C7_theorem (s : ScraperState) (u : String) (rest : List String)
    (hq : s.queue = u :: rest) :
    popFrontier s = some (u, { s with queue := rest }) ∧
    (crawl bfsCollab 5 (initState "http://h/s")).visited
      = ["http://h/s", "http://h/a", "http://h/b", "http://h/c"] := by
  constructor
  · simp [popFrontier, hq]
  · rfl

/-- C7 witness: FIFO pop and the BFS trace on the concrete example. -/
theorem C7_witness :
    popFrontier (initState "http://h/s")
      = some ("http://h/s", { initState "http://h/s" with queue := [] }) ∧
    (crawl bfsCollab 5 (initState "http://h/s")).visited
      = ["http://h/s", "http://h/a", "http://h/b", "http://h/c"] :=
  C7_theorem (initState "http://h/s") "http://h/s" [] rfl

/-! ## Per-page failure handling (C8) -/

/-- C8: a page whose render fails yields exactly this state: the queue
moves on to the next entry, the key is marked visited, one error report
is appended, and nothing else changes — no page document, no pushed
links, no growth of `seen_urls`; and once the key is visited, any later
occurrence popped from the queue is discarded without a second
attempt or report. -/
theorem C8_theorem (c : Collab) (s : ScraperState) (u : String) (rest : List String)
    (hq : s.queue = u :: rest)
    (hv : s.visited.contains (normalize_url u) = false)
    (hr : c.render u = none) :
    step c s
      = { s with
              queue := rest
              visited := s.visited ++ [normalize_url u]
              errors := s.errors ++ [errMsg u] } ∧
    (∀ s2 rest2, s2.queue = u :: rest2 → s2.visited.contains (normalize_url u) = true →
      step c s2 = { s2 with queue := rest2 }) := by
  constructor
  · rw [step_attempt c s u rest hq hv]
    unfold attemptPage
    rw [hr]
    rfl

  · exact fun s2 rest2 hq2 hv2 => step_discard c s2 u rest2 hq2 hv2


/-- C8 witness: a failing render on the seed of a one-page run, and the
discard of a second queued copy of the same key. -/
theorem C8_witness :
    step failCollab (initState "http://h/f")
      = { initState "http://h/f" with
              queue := []
              visited := [normalize_url "http://h/f"]
              errors := [errMsg "http://h/f"] } ∧
    step failCollab
        { initState "http://h/f" with
              visited := [normalize_url "http://h/f"]
              queue := ["http://h/f"] }
      = { initState "http://h/f" with
              visited := [normalize_url "http://h/f"]
              queue := [] } := by
  have h := C8_theorem failCollab (initState "http://h/f") "http://h/f" [] rfl rfl rfl
  refine ⟨h.1, h.2
    { initState "http://h/f" with
          visited := [normalize_url "http://h/f"]
          queue := ["http://h/f"] } [] rfl rfl⟩

/-! ## Scheme and `urljoin` lemmas -/

/-- Scheme characters are never `:`. -/
theorem isSchemeChar_ne_colon {c : Char} (h : isSchemeChar c = true) : c ≠ ':' := by
  intro he
  subst he
  exact absurd h (by decide)

/-- A well-formed scheme contains no `:`. -/
theorem saneScheme_no_colon {pre : List Char} (h : saneScheme pre = true) :
    ∀ c ∈ pre, c ≠ ':' := by
  match pre with
  | [] => simp
  | c :: cs =>
      have h2 : c.isAlpha = true ∧ cs.all isSchemeChar = true := by
        simpa [saneScheme] using h
      intro x hx
      rcases List.mem_cons.mp hx with rfl | hmem
      · intro he
        subst he
        exact absurd h2.1 (by decide)
      · exact isSchemeChar_ne_colon (List.all_eq_true.mp h2.2 x hmem)

/-- `splitScheme` recognises a well-formed `scheme:rest` split. -/
theorem splitScheme_append {pre rest : List Char} (hs : saneScheme pre = true) :
    splitScheme (pre ++ ':' :: rest) = some (pre, rest) := by
  have hall : ∀ c ∈ pre, (fun c => decide (c ≠ ':')) c = true := by
    intro c hc
    simp [saneScheme_no_colon hs c hc]
  unfold splitScheme
  rw [dropWhile_append_all hall, takeWhile_append_all hall]
  simp [hs]

/-- The scheme a successful `splitScheme` extracts is well-formed. -/
theorem splitScheme_inv {cs : List Char} {pr : List Char × List Char}
    (h : splitScheme cs = some pr) : saneScheme pr.1 = true := by
  unfold splitScheme at h
  split at h
  · split at h
    · rename_i hsane
      cases h
      exact hsane
    · exact Option.noConfusion h
  · exact Option.noConfusion h

/-- `splitScheme` of the empty string fails. -/
theorem splitScheme_nil : splitScheme ([] : List Char) = none := rfl

/-- `schemeOfL` after a successful split. -/
theorem schemeOfL_eq {cs : List Char} {pr : List Char × List Char}
    (h : splitScheme cs = some pr) : schemeOfL cs = pr.1 := by
  unfold schemeOfL
  rw [h]

/-- Against a base that carries a scheme, a join yields the base itself,
a reference that itself carries a scheme, or a string built from the
base's scheme. -/
theorem urljoinL_scheme_cases {base : List Char} {pr : List Char × List Char}
    (hb : splitScheme base = some pr) (h2 : List Char) :
    urljoinL base h2 = base ∨
    ((splitScheme h2).isSome = true ∧ urljoinL base h2 = h2) ∨
    ∃ rest, urljoinL base h2 = pr.1 ++ ':' :: rest := by
  have hbne : base.isEmpty = false := by
    cases base with
    | nil => rw [splitScheme_nil] at hb; exact Option.noConfusion hb
    | cons c cs => rfl
  have hsch : schemeOfL base = pr.1 := schemeOfL_eq hb
  unfold urljoinL
  by_cases he : h2.isEmpty = true
  · rw [if_pos he]
    exact Or.inl rfl
  · rw [if_neg he, hbne]
    simp only [Bool.false_eq_true, if_false]
    by_cases hs2 : (splitScheme h2).isSome = true
    · rw [if_pos hs2]
      exact Or.inr (Or.inl ⟨hs2, rfl⟩)
    · rw [if_neg hs2]
      by_cases h22 : h2.take 2 = ['/', '/']
      · rw [if_pos h22, hsch]
        exact Or.inr (Or.inr ⟨h2, rfl⟩)
      · rw [if_neg h22]
        by_cases h21 : h2.take 1 = ['/']
        · rw [if_pos h21, hsch]
          refine Or.inr (Or.inr ⟨'/' :: '/' :: (netlocL base ++ h2), ?_⟩)
          simp [List.append_assoc]
        · rw [if_neg h21]
          refine Or.inr (Or.inr ⟨('/' :: '/' :: netlocL base ++ dirSeg base) ++ h2, ?_⟩)
          unfold dirOfL
          rw [hsch]
          simp [List.append_assoc]

/-- Joining against a base that carries a scheme always produces a
result that carries a scheme. -/
theorem splitScheme_urljoinL {base : List Char} {pr : List Char × List Char}
    (hb : splitScheme base = some pr) (h2 : List Char) :
    (splitScheme (urljoinL base h2)).isSome = true := by
  have hsane : saneScheme pr.1 = true := splitScheme_inv hb
  rcases urljoinL_scheme_cases hb h2 with hc | ⟨hs2, hc⟩ | ⟨rest, hc⟩
  · rw [hc, hb]; rfl
  · rw [hc]; exact hs2
  · rw [hc, splitScheme_append hsane]; rfl

/-- A reference that itself carries a scheme is returned unchanged by
the join. -/
theorem urljoinL_of_scheme {base X : List Char} (hX : (splitScheme X).isSome = true) :
    urljoinL base X = X := by
  have hXne : X.isEmpty = false := by
    cases X with
    | nil => rw [splitScheme_nil] at hX; simp at hX
    | cons c cs => rfl
  unfold urljoinL
  rw [hXne]
  simp only [Bool.false_eq_true, if_false]
  by_cases hbe : base.isEmpty = true
  · rw [if_pos hbe]
  · rw [if_neg hbe, if_pos hX]

/-- Resolving an already-resolved reference is the identity: joining is
absorbing when the base carries a scheme. -/
theorem urljoinL_absorb {base h2 : List Char} {pr : List Char × List Char}
    (hb : splitScheme base = some pr) :
    urljoinL base (urljoinL base h2) = urljoinL base h2 :=
  urljoinL_of_scheme (splitScheme_urljoinL hb h2)

/-- String-level absorption of `urljoin`. -/
theorem urljoin_absorb (url h2 : String) (h : hasScheme url = true) :
    urljoin url (urljoin url h2) = urljoin url h2 := by
  obtain ⟨pr, hpr⟩ := Option.isSome_iff_exists.mp h
  show String.mk (urljoinL url.toList (String.mk (urljoinL url.toList h2.toList)).toList)
    = String.mk (urljoinL url.toList h2.toList)
  have ht : (String.mk (urljoinL url.toList h2.toList)).toList
      = urljoinL url.toList h2.toList := rfl
  rw [ht, urljoinL_absorb hpr]

/-! ## Link rewriting and link discovery -/

/-- Updating an attribute makes it readable back. -/
theorem getAttr_setAttr (a : List (String × String)) (k v : String) :
    getAttr (setAttr a k v) k = some v := by
  induction a with
  | nil => simp [setAttr, getAttr]
  | cons kv rest ih =>
      obtain ⟨k2, w⟩ := kv
      by_cases hk : k2 = k
      · simp [setAttr, getAttr, hk]
      · simp [setAttr, getAttr, hk, ih]

mutual

/-- Rewriting anchors and images maps each discovered `href` through
`urljoin`. -/
theorem anchorHrefs_rewrite (url : String) (n : Node) :
    anchorHrefs (rewriteURLs url n)
      = (anchorHrefs n).map (fun h => urljoin url h) := by
  match n with
  | .text s => rfl
  | .elem t a cs =>
      have hrec := anchorHrefsList_rewrite url cs
      show selfHref t (if t = "a" then
            match getAttr a "href" with
            | some h => setAttr a "href" (urljoin url h)
            | none => a
          else if t = "img" then
            match getAttr a "src" with
            | some h => setAttr a "src" (urljoin url h)
            | none => a
          else a) ++ anchorHrefsList (rewriteURLsList url cs)
        = (selfHref t a ++ anchorHrefsList cs).map (fun h => urljoin url h)
      rw [List.map_append, hrec]
      congr 1
      by_cases ht : t = "a"
      · rw [if_pos ht]
        cases hg : getAttr a "href" with
        | none => simp [selfHref, ht, hg]
        | some h => simp [selfHref, ht, hg, getAttr_setAttr]
      · by_cases hi : t = "img"
        · rw [if_neg ht, if_pos hi]
          cases hg : getAttr a "src" with
          | none => simp [selfHref, ht]
          | some h => simp [selfHref, ht]
        · rw [if_neg ht, if_neg hi]
          simp [selfHref, ht]

/-- List form of `anchorHrefs_rewrite`. -/
theorem anchorHrefsList_rewrite (url : String) (cs : List Node) :
    anchorHrefsList (rewriteURLsList url cs)
      = (anchorHrefsList cs).map (fun h => urljoin url h) := by
  match cs with
  | [] => rfl
  | c :: cs =>
      show anchorHrefs (rewriteURLs url c) ++ anchorHrefsList (rewriteURLsList url cs)
        = (anchorHrefs c ++ anchorHrefsList cs).map (fun h => urljoin url h)
      rw [List.map_append, anchorHrefs_rewrite url c, anchorHrefsList_rewrite url cs]

end

mutual

/-- Splitting link discovery around the subtree at a valid path: there
are fixed flanks `L` and `R` such that the document's hrefs are
`L ++ hrefs(subtree) ++ R`, and mutating the subtree in place only
replaces the middle. -/
theorem anchorHrefs_split (d : Node) (p : Path) (m : Node) (h : getAt d p = some m) :
    ∃ L R, anchorHrefs d = L ++ anchorHrefs m ++ R ∧
      ∀ f, anchorHrefs (mutateAt d p f) = L ++ anchorHrefs (f m) ++ R := by
  match d, p with
  | d, [] =>
      have hm : d = m := by
        have h2 := h
        simp [getAt] at h2
        exact h2
      subst hm
      exact ⟨[], [], by simp, fun f => by simp [mutateAt]⟩
  | .text s, i :: p2 => exact absurd h (by simp [getAt])
  | .elem t a cs, i :: p2 =>
      have h2 : getAtList cs i p2 = some m := h
      obtain ⟨L, R, h3, h4⟩ := anchorHrefsList_split cs i p2 m h2
      refine ⟨selfHref t a ++ L, R, ?_, fun f => ?_⟩
      · show selfHref t a ++ anchorHrefsList cs = selfHref t a ++ L ++ anchorHrefs m ++ R
        rw [h3]
        simp [List.append_assoc]
      · show selfHref t a ++ anchorHrefsList (mutateChild cs i p2 f)
          = selfHref t a ++ L ++ anchorHrefs (f m) ++ R
        rw [h4 f]
        simp [List.append_assoc]

/-- List form of `anchorHrefs_split`. -/
theorem anchorHrefsList_split (cs : List Node) (i : Nat) (p : Path) (m : Node)
    (h : getAtList cs i p = some m) :
    ∃ L R, anchorHrefsList cs = L ++ anchorHrefs m ++ R ∧
      ∀ f, anchorHrefsList (mutateChild cs i p f) = L ++ anchorHrefs (f m) ++ R := by
  match cs, i with
  | [], _ => exact absurd h (by simp [getAtList])
  | c :: cs, 0 =>
      have h2 : getAt c p = some m := h
      obtain ⟨L, R, h3, h4⟩ := anchorHrefs_split c p m h2
      refine ⟨L, R ++ anchorHrefsList cs, ?_, fun f => ?_⟩
      · show anchorHrefs c ++ anchorHrefsList cs = L ++ anchorHrefs m ++ (R ++ anchorHrefsList cs)
        rw [h3]
        simp [List.append_assoc]
      · show anchorHrefs (mutateAt c p f) ++ anchorHrefsList cs
          = L ++ anchorHrefs (f m) ++ (R ++ anchorHrefsList cs)
        rw [h4 f]
        simp [List.append_assoc]
  | c :: cs, i + 1 =>
      have h2 : getAtList cs i p = some m := h
      obtain ⟨L, R, h3, h4⟩ := anchorHrefsList_split cs i p m h2
      refine ⟨anchorHrefs c ++ L, R, ?_, fun f => ?_⟩
      · show anchorHrefs c ++ anchorHrefsList cs = anchorHrefs c ++ L ++ anchorHrefs m ++ R
        rw [h3]
        simp [List.append_assoc]
      · show anchorHrefs c ++ anchorHrefsList (mutateChild cs i p f)
          = anchorHrefs c ++ L ++ anchorHrefs (f m) ++ R
        rw [h4 f]
        simp [List.append_assoc]

end

/-! ## Link discovery (C2) -/

/-- C2: the claim says noise removal from the content region never
removes a link from the discovered sequence; but the region aliases the
document tree, so on a page whose `main` holds its only anchor inside a
`nav`, the decompose step deletes that anchor before line 100 runs and
link discovery returns nothing, while a scan of the original document
would return the link. -/
theorem C2_counterexample :
    discoveredLinks "http://h/s" docNavLink = [] ∧
    specDiscoveredLinks "http://h/s" docNavLink = ["http://h/x"] ∧
    discoveredLinks "http://h/s" docNavLink ≠ specDiscoveredLinks "http://h/s" docNavLink :=
  ⟨rfl, rfl, by decide⟩

/-- C2 (amended): link discovery scans the whole document *as mutated by
the extraction phase* — the content region aliases the tree, so anchors
inside the noise subtrees removed from the region are gone, while all
anchors outside the region (and the region's surviving anchors) are
still seen; the discovered sequence is exactly the `href` values
surviving noise removal, resolved against the page URL, in document
order, duplicates kept.  (The in-region `urljoin` rewriting of lines
85–89 is absorbed by the discovery loop's own `urljoin`.) -/
theorem C2_theorem (url : String) (doc : Node) (h : hasScheme url = true) :
    discoveredLinks url doc
      = (anchorHrefs (docNoiseCleaned doc)).map (fun h2 => urljoin url h2) := by
  unfold discoveredLinks docAfterExtraction docNoiseCleaned
  cases hp : regionPath doc with
  | none => rfl
  | some p =>
      cases hg : getAt doc p with
      | none => simp [hg]
      | some region =>
          by_cases ht : truthyNode region = true
          · simp only [hg, ht, if_pos]
            obtain ⟨L, R, hsplit, hmut⟩ := anchorHrefs_split doc p region hg
            rw [hmut (fun n => rewriteURLs url (removeNoise n)), hmut removeNoise]
            simp only [List.map_append]
            congr 1
            congr 1
            rw [anchorHrefs_rewrite url (removeNoise region), List.map_map]
            refine List.map_congr_left (fun a _ => ?_)
            show urljoin url (urljoin url a) = urljoin url a
            exact urljoin_absorb url a h
          · simp [hg, ht]

/-- C2 witness: the amended discovery law on the nav-inside-main
document and on the BFS seed page (whose anchors lie outside any noise
subtree and all survive). -/
theorem C2_witness :
    discoveredLinks "http://h/s" docNavLink
      = (anchorHrefs (docNoiseCleaned docNavLink)).map (fun h2 => urljoin "http://h/s" h2) ∧
    discoveredLinks "http://h/s" docS
      = (anchorHrefs (docNoiseCleaned docS)).map (fun h2 => urljoin "http://h/s" h2) :=
  ⟨C2_theorem ("http://h/s") docNavLink rfl, C2_theorem ("http://h/s") docS rfl⟩

end ScraperTool
